import Mathlib

/-!
Verification of the key-system repository (single Python source file
`key.py`): a shallow embedding of its license-key data model, the
`KeyManager` operations, the duration parser, and the two Flask HTTP
handlers, together with theorems settling the specification claims.

Python dictionaries (`storage.data["keys"]`, `["users"]`, and each
user profile's `"keys"` map) are modelled as association lists of
string keys; dictionary assignment is in-place overwrite and `del`
removes the binding.  Python `datetime` values are modelled as a
record of calendar fields; `isoformat`/`fromisoformat` are modelled
character-for-character on the formats the program produces.
-/

namespace KeySystem

/-! ## Association lists modelling Python dicts -/

/-- Lookup in a Python-dict model: first binding of the key wins
(dicts never hold duplicate keys). -/
def alookup {α : Type} : List (String × α) → String → Option α
  | [], _ => none
  | (k', v) :: t, k => if k' = k then some v else alookup t k

/-- `d[k] = v` on a Python dict: overwrite in place when the key is
present, append otherwise. -/
def ainsert {α : Type} : List (String × α) → String → α → List (String × α)
  | [], k, v => [(k, v)]
  | (k', v') :: t, k, v => if k' = k then (k, v) :: t else (k', v') :: ainsert t k v

/-- `del d[k]` on a Python dict: remove the binding of `k`. -/
def aerase {α : Type} (l : List (String × α)) (k : String) : List (String × α) :=
  l.filter (fun p => p.1 ≠ k)

theorem alookup_ainsert {α : Type} (l : List (String × α)) (k : String) (v : α) :
    alookup (ainsert l k v) k = some v := by
  induction l with
  | nil => simp [ainsert, alookup]
  | cons p t ih =>
    by_cases h : p.1 = k
    · simp [ainsert, alookup, h]
    · simpa [ainsert, alookup, h] using ih

theorem alookup_ainsert_ne {α : Type} (l : List (String × α)) (k k' : String) (v : α)
    (h : k' ≠ k) : alookup (ainsert l k v) k' = alookup l k' := by
  induction l with
  | nil => simp [ainsert, alookup, Ne.symm h]
  | cons p t ih =>
    by_cases hp : p.1 = k
    · simp [ainsert, alookup, hp, Ne.symm h]
    · simp only [ainsert, hp, if_false, alookup]
      by_cases hp' : p.1 = k'
      · simp [hp']
      · simpa [hp'] using ih

theorem alookup_aerase {α : Type} (l : List (String × α)) (k : String) :
    alookup (aerase l k) k = none := by
  induction l with
  | nil => simp [aerase, alookup]
  | cons p t ih =>
    by_cases h : p.1 = k
    · simpa [aerase, List.filter_cons, h] using ih
    · simpa [aerase, List.filter_cons, alookup, h] using ih

theorem alookup_aerase_ne {α : Type} (l : List (String × α)) (k k' : String)
    (h : k' ≠ k) : alookup (aerase l k) k' = alookup l k' := by
  induction l with
  | nil => simp [aerase, alookup]
  | cons p t ih =>
    by_cases hp : p.1 = k
    · simpa [aerase, List.filter_cons, alookup, hp, Ne.symm h] using ih
    · by_cases hp' : p.1 = k'
      · simp [aerase, List.filter_cons, alookup, hp, hp', h]
      · simpa [aerase, List.filter_cons, alookup, hp, hp'] using ih

theorem length_ainsert_of_mem {α : Type} (l : List (String × α)) (k : String) (v w : α)
    (h : alookup l k = some v) : (ainsert l k w).length = l.length := by
  induction l with
  | nil => simp [alookup] at h
  | cons p t ih =>
    by_cases hp : p.1 = k
    · simp [ainsert, hp]
    · simp only [alookup, hp, if_false] at h
      simp [ainsert, hp, ih h]

theorem alookup_mem {α : Type} (l : List (String × α)) (k : String) (v : α)
    (h : alookup l k = some v) : (k, v) ∈ l := by
  induction l with
  | nil => simp [alookup] at h
  | cons p t ih =>
    obtain ⟨k1, v1⟩ := p
    by_cases hp : k1 = k
    · have hv : v1 = v := by simpa [alookup, hp] using h
      subst hp
      subst hv
      exact List.mem_cons_self _ _
    · exact List.mem_cons_of_mem _ (ih (by simpa [alookup, hp] using h))

/-! ## Decimal digit strings -/

/-- Value of a decimal digit character, `int(c)` style. -/
def digitVal (c : Char) : Nat := c.toNat - 48

/-- The decimal digit character for `d < 10`. -/
def digitChar (d : Nat) : Char := Char.ofNat (48 + d)

theorem digitChar_isDigit {d : Nat} (h : d < 10) : (digitChar d).isDigit = true := by
  interval_cases d <;> decide

theorem digitVal_digitChar {d : Nat} (h : d < 10) : digitVal (digitChar d) = d := by
  interval_cases d <;> decide

/-- Decimal rendering of a natural number, most significant digit
first (the model of Python `str(n)` for `n : int ≥ 0`). -/
def toDecimal (n : Nat) : List Char :=
  if h : n < 10 then [digitChar n]
  else toDecimal (n / 10) ++ [digitChar (n % 10)]
termination_by n
decreasing_by exact Nat.div_lt_self (by omega) (by omega)

/-- Parse a digit string into a number (the model of `int(s)` on a
string of decimal digits). -/
def parseDigits (l : List Char) : Nat :=
  l.foldl (fun a c => a * 10 + digitVal c) 0

theorem toDecimal_ne_nil (n : Nat) : toDecimal n ≠ [] := by
  rw [toDecimal]
  split
  · simp
  · simp

theorem toDecimal_all_digits (n : Nat) : ∀ c ∈ toDecimal n, c.isDigit = true := by
  induction n using Nat.strong_induction_on with
  | _ n ih =>
    rw [toDecimal]
    split
    · intro c hc
      simp only [List.mem_singleton] at hc
      subst hc
      exact digitChar_isDigit (by omega)
    · intro c hc
      rcases List.mem_append.mp hc with h1 | h1
      · exact ih (n / 10) (Nat.div_lt_self (by omega) (by omega)) c h1
      · simp only [List.mem_singleton] at h1
        subst h1
        exact digitChar_isDigit (Nat.mod_lt _ (by omega))

theorem parseDigits_append_one (l : List Char) (c : Char) :
    parseDigits (l ++ [c]) = parseDigits l * 10 + digitVal c := by
  simp [parseDigits, List.foldl_append]

theorem parseDigits_toDecimal (n : Nat) : parseDigits (toDecimal n) = n := by
  induction n using Nat.strong_induction_on with
  | _ n ih =>
    rw [toDecimal]
    split
    · next h =>
      simp [parseDigits, digitVal_digitChar h]
    · next h =>
      rw [parseDigits_append_one,
          ih (n / 10) (Nat.div_lt_self (by omega) (by omega)),
          digitVal_digitChar (Nat.mod_lt _ (by omega))]
      omega

/-! ## Fixed-width digit fields (for ISO-8601 timestamps) -/

/-- Zero-padded fixed-width decimal rendering: `width` digit
characters, most significant first (correct for `n < 10 ^ width`). -/
def padNum : Nat → Nat → List Char
  | 0, _ => []
  | w + 1, n => padNum w (n / 10) ++ [digitChar (n % 10)]

/-- Read exactly `width` digit characters from the front of the list,
accumulating their value; fails on a non-digit or a short list. -/
def readFixedAux : Nat → Nat → List Char → Option (Nat × List Char)
  | 0, a, l => some (a, l)
  | w + 1, a, c :: l => if c.isDigit then readFixedAux w (a * 10 + digitVal c) l else none
  | _ + 1, _, [] => none

/-- Read a fixed-width decimal field. -/
def readFixed (w : Nat) (l : List Char) : Option (Nat × List Char) :=
  readFixedAux w 0 l

theorem length_padNum (w n : Nat) : (padNum w n).length = w := by
  induction w generalizing n with
  | zero => simp [padNum]
  | succ w ih => simp [padNum, ih]

theorem readFixedAux_padNum (w : Nat) :
    ∀ (j a n : Nat) (rest : List Char), n < 10 ^ w →
      readFixedAux (j + w) a (padNum w n ++ rest) =
        readFixedAux j (a * 10 ^ w + n) rest := by
  induction w with
  | zero =>
    intro j a n rest hn
    simp only [pow_zero] at hn
    interval_cases n
    simp [padNum]
  | succ w ih =>
    intro j a n rest hn
    have hdiv : n / 10 < 10 ^ w := by
      rw [Nat.div_lt_iff_lt_mul (by omega)]
      calc n < 10 ^ (w + 1) := hn
        _ = 10 ^ w * 10 := by rw [pow_succ]
    have hj : j + (w + 1) = (j + 1) + w := by omega
    rw [padNum, List.append_assoc, List.singleton_append, hj,
        ih (j + 1) a (n / 10) (digitChar (n % 10) :: rest) hdiv]
    have hmod : n % 10 < 10 := Nat.mod_lt _ (by omega)
    rw [readFixedAux, if_pos (digitChar_isDigit hmod), digitVal_digitChar hmod]
    congr 1
    have h1 : 10 * (n / 10) + n % 10 = n := Nat.div_add_mod n 10
    calc (a * 10 ^ w + n / 10) * 10 + n % 10
        = a * (10 ^ w * 10) + (10 * (n / 10) + n % 10) := by ring
      _ = a * 10 ^ (w + 1) + n := by rw [h1, pow_succ]

theorem readFixed_padNum (w n : Nat) (rest : List Char) (hn : n < 10 ^ w) :
    readFixed w (padNum w n ++ rest) = some (n, rest) := by
  have := readFixedAux_padNum w 0 0 n rest hn
  simpa [readFixed, readFixedAux] using this

/-! ## Python `datetime` model -/

/-- Model of a Python `datetime.datetime` value: the seven calendar
and time fields.  Python guarantees `1 <= year <= 9999` and the usual
calendar bounds; `validDatetime` below captures them. -/
structure Datetime where
  year : Nat
  month : Nat
  day : Nat
  hour : Nat
  minute : Nat
  second : Nat
  microsecond : Nat
deriving DecidableEq, Repr

/-- Gregorian leap-year test. -/
def isLeap (y : Nat) : Bool :=
  y % 4 = 0 && (y % 100 ≠ 0 || y % 400 = 0)

/-- Length of a month in the proleptic Gregorian calendar. -/
def daysInMonth (y m : Nat) : Nat :=
  if m = 2 then (if isLeap y then 29 else 28)
  else if m = 4 ∨ m = 6 ∨ m = 9 ∨ m = 11 then 30
  else 31

/-- The field bounds Python `datetime` enforces on construction. -/
def validDatetime (t : Datetime) : Prop :=
  1 ≤ t.year ∧ t.year ≤ 9999 ∧ 1 ≤ t.month ∧ t.month ≤ 12 ∧
  1 ≤ t.day ∧ t.day ≤ daysInMonth t.year t.month ∧
  t.hour < 24 ∧ t.minute < 60 ∧ t.second < 60 ∧ t.microsecond < 1000000

instance (t : Datetime) : Decidable (validDatetime t) := by
  unfold validDatetime
  infer_instance

/-- Model of `datetime.isoformat()`: `YYYY-MM-DDTHH:MM:SS`, with a
`.ffffff` microsecond suffix exactly when the microsecond field is
non-zero (Python omits it when zero). -/
def isoformat (t : Datetime) : List Char :=
  padNum 4 t.year ++ '-' ::
  (padNum 2 t.month ++ '-' ::
  (padNum 2 t.day ++ 'T' ::
  (padNum 2 t.hour ++ ':' ::
  (padNum 2 t.minute ++ ':' ::
  (padNum 2 t.second ++
    (if t.microsecond = 0 then [] else '.' :: padNum 6 t.microsecond))))))

/-- Consume one expected character. -/
def expectChar (c : Char) : List Char → Option (List Char)
  | x :: r => if x = c then some r else none
  | [] => none

/-- Read the optional microsecond suffix: nothing left means zero
microseconds; a dot is followed by exactly six digits. -/
def readUsSuffix : List Char → Option (Nat × List Char)
  | [] => some (0, [])
  | '.' :: rr => readFixed 6 rr
  | _ => none

/-- Model of `datetime.fromisoformat` on the formats `isoformat`
emits (date, `T` separator, time, optional 6-digit microseconds),
including the range validation Python performs; other inputs are
rejected, standing for the `ValueError` Python raises. -/
def fromisoformat (l : List Char) : Option Datetime :=
  match readFixed 4 l with
  | none => none
  | some (y, r1) =>
  match expectChar '-' r1 with
  | none => none
  | some r2 =>
  match readFixed 2 r2 with
  | none => none
  | some (mo, r3) =>
  match expectChar '-' r3 with
  | none => none
  | some r4 =>
  match readFixed 2 r4 with
  | none => none
  | some (d, r5) =>
  match expectChar 'T' r5 with
  | none => none
  | some r6 =>
  match readFixed 2 r6 with
  | none => none
  | some (h, r7) =>
  match expectChar ':' r7 with
  | none => none
  | some r8 =>
  match readFixed 2 r8 with
  | none => none
  | some (mi, r9) =>
  match expectChar ':' r9 with
  | none => none
  | some r10 =>
  match readFixed 2 r10 with
  | none => none
  | some (s, r11) =>
  match readUsSuffix r11 with
  | none => none
  | some (us, r12) =>
  if r12 = [] then
    if validDatetime ⟨y, mo, d, h, mi, s, us⟩ then some ⟨y, mo, d, h, mi, s, us⟩
    else none
  else none

theorem fromisoformat_isoformat (t : Datetime) (h : validDatetime t) :
    fromisoformat (isoformat t) = some t := by
  obtain ⟨h1, h2, h3, h4, h5, h6, h7, h8, h9, h10⟩ := h
  have hday : t.day < 100 := by
    have : daysInMonth t.year t.month ≤ 31 := by
      unfold daysInMonth
      split
      · split <;> omega
      · split <;> omega
    omega
  have hv : validDatetime ⟨t.year, t.month, t.day, t.hour, t.minute, t.second,
      t.microsecond⟩ := ⟨h1, h2, h3, h4, h5, h6, h7, h8, h9, h10⟩
  have hsec : ∀ tail : List Char, readUsSuffix tail = some (t.microsecond, []) →
      fromisoformat (padNum 4 t.year ++ '-' ::
        (padNum 2 t.month ++ '-' ::
        (padNum 2 t.day ++ 'T' ::
        (padNum 2 t.hour ++ ':' ::
        (padNum 2 t.minute ++ ':' ::
        (padNum 2 t.second ++ tail)))))) = some t := by
    intro tail htail
    rw [fromisoformat]
    rw [readFixed_padNum 4 t.year _ (by omega)]
    simp only [expectChar, if_pos rfl, if_true]
    rw [readFixed_padNum 2 t.month _ (by omega)]
    simp only [expectChar, if_pos rfl, if_true]
    rw [readFixed_padNum 2 t.day _ (by omega)]
    simp only [expectChar, if_pos rfl, if_true]
    rw [readFixed_padNum 2 t.hour _ (by omega)]
    simp only [expectChar, if_pos rfl, if_true]
    rw [readFixed_padNum 2 t.minute _ (by omega)]
    simp only [expectChar, if_pos rfl, if_true]
    rw [readFixed_padNum 2 t.second _ (by omega)]
    dsimp only
    rw [htail]
    dsimp only
    rw [if_pos rfl, if_pos hv]
  rw [isoformat]
  by_cases hus : t.microsecond = 0
  · rw [if_pos hus]
    exact hsec [] (by rw [readUsSuffix, hus])
  · rw [if_neg hus]
    refine hsec ('.' :: padNum 6 t.microsecond) ?_
    rw [readUsSuffix]
    rw [show (padNum 6 t.microsecond : List Char) = padNum 6 t.microsecond ++ [] by simp]
    exact readFixed_padNum 6 t.microsecond [] (by omega)

/-! ## Calendar arithmetic (timedelta support) -/

/-- Days from 1970-01-01 to the given proleptic-Gregorian civil date
(the standard era-based day-count algorithm, as used by Python's
`datetime.toordinal` up to the epoch offset). -/
def daysFromCivil (y m d : Int) : Int :=
  let yAdj : Int := y - (if m ≤ 2 then 1 else 0)
  let era : Int := Int.fdiv yAdj 400
  let yoe : Int := yAdj - era * 400
  let mp : Int := Int.emod (m + 9) 12
  let doy : Int := (153 * mp + 2) / 5 + d - 1
  let doe : Int := yoe * 365 + yoe / 4 - yoe / 100 + doy
  era * 146097 + doe - 719468

/-- Inverse of `daysFromCivil`: the civil date of a day count. -/
def civilFromDays (z0 : Int) : Int × Int × Int :=
  let z : Int := z0 + 719468
  let era : Int := Int.fdiv z 146097
  let doe : Int := z - era * 146097
  let yoe : Int := (doe - doe / 1460 + doe / 36524 - doe / 146096) / 365
  let y : Int := yoe + era * 400
  let doy : Int := doe - (365 * yoe + yoe / 4 - yoe / 100)
  let mp : Int := (5 * doy + 2) / 153
  let d : Int := doy - (153 * mp + 2) / 5 + 1
  let m : Int := mp + (if mp < 10 then 3 else -9)
  (y + (if m ≤ 2 then 1 else 0), m, d)

/-- `dt + timedelta(days=n)`: shift the date part, keep the time. -/
def addDays (t : Datetime) (n : Nat) : Datetime :=
  let c := civilFromDays (daysFromCivil t.year t.month t.day + n)
  { t with year := c.1.toNat, month := c.2.1.toNat, day := c.2.2.toNat }

/-- Microseconds since the epoch; the basis of `datetime`
subtraction (`timedelta` comparisons and `.days`). -/
def dtMicros (t : Datetime) : Int :=
  daysFromCivil t.year t.month t.day * 86400000000 +
    ((t.hour * 3600 + t.minute * 60 + t.second) * 1000000 + t.microsecond)

/-- Microseconds in one day. -/
def usPerDay : Int := 86400000000

/-- Python `datetime` comparison `a < b`: field-lexicographic, which
on valid datetimes coincides with comparing instants. -/
def dtLtb (a b : Datetime) : Bool :=
  if a.year ≠ b.year then decide (a.year < b.year)
  else if a.month ≠ b.month then decide (a.month < b.month)
  else if a.day ≠ b.day then decide (a.day < b.day)
  else if a.hour ≠ b.hour then decide (a.hour < b.hour)
  else if a.minute ≠ b.minute then decide (a.minute < b.minute)
  else if a.second ≠ b.second then decide (a.second < b.second)
  else decide (a.microsecond < b.microsecond)

/-- `(a - b).days` for two datetimes: Python `timedelta` normalizes
so that `.days` is the floor of the total difference in days. -/
def deltaDays (a b : Datetime) : Int :=
  Int.fdiv (dtMicros a - dtMicros b) usPerDay

/-! ## LicenseKey and its persisted record -/

/-- In-memory `LicenseKey` object (`key.py` lines 108-118). -/
structure LicenseKey where
  key_id : String
  key_type : String
  user_id : Int
  hwid : String
  expires_at : Datetime
  created_at : Datetime
  name : String
  status : String
deriving DecidableEq, Repr

/-- The persisted per-key record: the dict produced by
`LicenseKey.to_dict`, with both timestamps as ISO strings. -/
structure KeyDict where
  key_id : String
  key_type : String
  user_id : Int
  hwid : String
  expires_at : String
  created_at : String
  name : String
  status : String
deriving DecidableEq, Repr

/-- `LicenseKey.to_dict` (`key.py` lines 120-130). -/
def to_dict (k : LicenseKey) : KeyDict :=
  { key_id := k.key_id
    key_type := k.key_type
    user_id := k.user_id
    hwid := k.hwid
    expires_at := String.mk (isoformat k.expires_at)
    created_at := String.mk (isoformat k.created_at)
    name := k.name
    status := k.status }

/-- `LicenseKey.from_dict` (`key.py` lines 132-143).  The `.get`
defaults for `name`/`status` never fire on our typed record, whose
fields are always present; a timestamp `fromisoformat` failure (a
raised `ValueError` in Python) is modelled as `none`. -/
def from_dict (d : KeyDict) : Option LicenseKey :=
  match fromisoformat d.expires_at.data, fromisoformat d.created_at.data with
  | some e, some c =>
      some { key_id := d.key_id, key_type := d.key_type, user_id := d.user_id,
             hwid := d.hwid, expires_at := e, created_at := c,
             name := d.name, status := d.status }
  | _, _ => none

/-- `LicenseKey.is_expired` (`key.py` lines 145-148); `now` is the
value `datetime.now()` returns at the check. -/
def is_expired (k : LicenseKey) (now : Datetime) : Bool :=
  if 9999 ≤ k.expires_at.year then false
  else dtLtb k.expires_at now

/-- Result of `days_until_expiry`: the infinity string or a day
count. -/
inductive DaysLeft where
  | inf
  | fin (n : Int)
deriving DecidableEq, Repr

/-- `LicenseKey.days_until_expiry` (`key.py` lines 150-154). -/
def days_until_expiry (k : LicenseKey) (now : Datetime) : DaysLeft :=
  if 9999 ≤ k.expires_at.year then DaysLeft.inf
  else DaysLeft.fin (deltaDays k.expires_at now)

/-! ## Persisted state: keys and users mappings -/

/-- The denormalized per-key summary stored under a user profile's
`keys` map (`key.py` lines 192-197). -/
structure Summary where
  key_type : String
  expires_at : String
  hwid : String
  status : String
deriving DecidableEq, Repr

/-- A user profile as `create_key` builds it (`key.py` line 191):
`discord_id`, `keys`, `hwids`.  Python profiles are open dicts; the
`resets_left` field stands for the per-type reset counters the
specification describes.  No code in `key.py` ever reads or writes
it, so every operation carries it through unchanged; a freshly
created profile has none. -/
structure Profile where
  discord_id : Int
  keys : List (String × Summary)
  hwids : List String
  resets_left : List (String × Nat)
deriving DecidableEq, Repr

/-- The two top-level mappings of the persisted document that the key
operations touch: `storage.data["keys"]` and `storage.data["users"]`. -/
structure St where
  keys : List (String × KeyDict)
  users : List (String × Profile)
deriving DecidableEq, Repr

/-! ## KeyManager -/

/-- `KeyManager.generate_key` (`key.py` lines 157-164).  `hash16`
stands for the first 16 uppercased hex characters of the SHA-256 of
its argument; it is an arbitrary fixed function of the combined
string, which is all the claims need.  `timestamp` is
`int(time.time())`, the current Unix time in whole seconds. -/
def generate_key (hash16 : String → String) (key_type : String) (user_id : Int)
    (hwid : String) (timestamp : Nat) : String :=
  key_type ++ "-" ++
    hash16 (key_type ++ "-" ++ toString user_id ++ "-" ++ hwid ++ "-" ++ toString timestamp)

/-- The sentinel `datetime(year=9999, month=12, day=31)`. -/
def sentinelExpiry : Datetime := ⟨9999, 12, 31, 0, 0, 0, 0⟩

/-- The expiry `create_key` computes: the sentinel when
`duration_days == 0`, else `now + timedelta(days=duration_days)`. -/
def expiryOf (duration_days : Nat) (now : Datetime) : Datetime :=
  if duration_days = 0 then sentinelExpiry else addDays now duration_days

/-- The profile `create_key` works on: the existing one, or the fresh
`{"discord_id": user_id, "keys": {}, "hwids": []}` (`key.py` line
191). -/
def profileFor (st : St) (user_id : Int) : Profile :=
  match alookup st.users (toString user_id) with
  | some p => p
  | none => { discord_id := user_id, keys := [], hwids := [], resets_left := [] }

/-- `KeyManager.create_key` (`key.py` lines 166-202): build the key
(sentinel expiry when `duration_days == 0`, otherwise
`now + timedelta(days=duration_days)`), upsert it into `keys`, create
the user profile if missing, add the summary under the user, append
the hwid if new.  `now` is `datetime.now()`, `timestamp` feeds
`generate_key`.  There is no reset-counter check: creation always
succeeds. -/
def create_key (hash16 : String → String) (key_type : String) (user_id : Int)
    (hwid : String) (duration_days : Nat) (name : String) (now : Datetime)
    (timestamp : Nat) (st : St) : LicenseKey × St :=
  let key_id := generate_key hash16 key_type user_id hwid timestamp
  let expires_at := expiryOf duration_days now
  let license_key : LicenseKey :=
    { key_id := key_id, key_type := key_type, user_id := user_id, hwid := hwid,
      expires_at := expires_at, created_at := now, name := name, status := "deactivated" }
  let keys2 := ainsert st.keys key_id (to_dict license_key)
  let user_key := toString user_id
  let prof : Profile := profileFor st user_id
  let summ : Summary :=
    { key_type := key_type, expires_at := String.mk (isoformat expires_at),
      hwid := hwid, status := "deactivated" }
  let prof2 : Profile :=
    { prof with
      keys := ainsert prof.keys key_id summ,
      hwids := if hwid ∈ prof.hwids then prof.hwids else prof.hwids ++ [hwid] }
  (license_key, { keys := keys2, users := ainsert st.users user_key prof2 })

/-- `KeyManager.activate_key` (`key.py` lines 204-216): takes only a
`key_id` (no hwid), unconditionally sets the status of an existing
key to `"activated"` regardless of its current status, mirrors the
status into the owner's summary when that summary exists, and
returns whether the key was found. -/
def activate_key (key_id : String) (st : St) : Bool × St :=
  match alookup st.keys key_id with
  | none => (false, st)
  | some rec0 =>
    let keys2 := ainsert st.keys key_id { rec0 with status := "activated" }
    let user_key := toString rec0.user_id
    let users2 :=
      match alookup st.users user_key with
      | some prof =>
        match alookup prof.keys key_id with
        | some summ =>
            ainsert st.users user_key
              { prof with keys := ainsert prof.keys key_id { summ with status := "activated" } }
        | none => st.users
      | none => st.users
    (true, { keys := keys2, users := users2 })

/-- `KeyManager.get_key` (`key.py` lines 218-224): `none` when the id
is absent; `some (from_dict rec)` when present (the inner `none`
standing for a `from_dict` parse exception). -/
def get_key (st : St) (key_id : String) : Option (Option LicenseKey) :=
  (alookup st.keys key_id).map from_dict

/-- `KeyManager.delete_key` (`key.py` lines 226-244): remove the key
from `keys` and, when present, from the owning user's summary map;
report whether anything was deleted. -/
def delete_key (key_id : String) (st : St) : Bool × St :=
  match alookup st.keys key_id with
  | none => (false, st)
  | some rec0 =>
    let keys2 := aerase st.keys key_id
    let user_key := toString rec0.user_id
    let users2 :=
      match alookup st.users user_key with
      | some prof =>
        if (alookup prof.keys key_id).isSome then
          ainsert st.users user_key { prof with keys := aerase prof.keys key_id }
        else st.users
      | none => st.users
    (true, { keys := keys2, users := users2 })

/-- The self-service reset path (`ASTDResetKeyButton.callback`,
`key.py` lines 486-506, and `manage_key` lines 833-844): collect the
user's keys of the requested type via `get_user_keys` and delete each
with `KeyManager.delete_key`.  No stored counter is touched; the
"Resets Left" shown to the user is the hardcoded local
`resets_left = 1` minus one. -/
def resetUserKeys (user_id : Int) (key_type : String) (st : St) : St :=
  let ids := (st.keys.filter
      (fun p => p.2.user_id == user_id && p.2.key_type == key_type)).map
    (fun p => p.2.key_id)
  ids.foldl (fun s k => (delete_key k s).2) st

/-! ## HTTP endpoints -/

/-- The `days_left` field of a `/check` response: the infinity
string, an integer, or JSON null (when parsing the stored timestamp
raised). -/
inductive DaysLeftResp where
  | inf
  | fin (n : Int)
  | null
deriving DecidableEq, Repr

/-- The success body of `POST /check`. -/
structure CheckOk where
  key_id : String
  key_type : String
  user_id : Int
  hwid : String
  status : String
  expires_at : String
  created_at : String
  name : String
  days_left : DaysLeftResp
deriving DecidableEq, Repr

/-- A `POST /check` response. -/
inductive CheckResp where
  | valid (r : CheckOk)
  | invalid
deriving DecidableEq, Repr

/-- Whether a `/check` response reported the key valid. -/
def CheckResp.isValid : CheckResp → Bool
  | CheckResp.valid _ => true
  | CheckResp.invalid => false

/-- The `days_left` computation inside `check_key` (`key.py` lines
661-669): parse the stored expiry; year 9999 or later means the
infinity marker, otherwise `(expires_at - now).days`; a parse
exception yields null. -/
def checkDaysLeft (now : Datetime) (rec0 : KeyDict) : DaysLeftResp :=
  match fromisoformat rec0.expires_at.data with
  | none => DaysLeftResp.null
  | some e =>
      if 9999 ≤ e.year then DaysLeftResp.inf
      else DaysLeftResp.fin (deltaDays e now)

/-- `POST /check` (`check_key`, `key.py` lines 652-683).  The handler
reads only the `key` field of the request; the caller-supplied hwid
(`hwid_arg`) is never read, and neither expiry nor hwid is tested:
any stored key is reported valid, with the full record and the
computed `days_left`. -/
def check_key (now : Datetime) (key hwid_arg : String)
    (keys : List (String × KeyDict)) : CheckResp :=
  match alookup keys key with
  | none => CheckResp.invalid
  | some rec0 =>
      CheckResp.valid
        { key_id := rec0.key_id, key_type := rec0.key_type, user_id := rec0.user_id,
          hwid := rec0.hwid, status := rec0.status, expires_at := rec0.expires_at,
          created_at := rec0.created_at, name := rec0.name,
          days_left := checkDaysLeft now rec0 }

/-- A `POST /activate` response body. -/
structure ActResp where
  success : Bool
  message : String
deriving DecidableEq, Repr

/-- `POST /activate` (`activate_key_api`, `key.py` lines 685-703):
activate a not-yet-activated key only when the supplied hwid equals
the hwid stored at creation; an already-activated key answers
success regardless of the supplied hwid; otherwise report a hwid
mismatch; an unknown key reports not-found. -/
def activate_key_api (key hwid : String) (keys : List (String × KeyDict)) :
    ActResp × List (String × KeyDict) :=
  match alookup keys key with
  | none => ({ success := false, message := "Key not found." }, keys)
  | some ki =>
      if ki.status ≠ "activated" ∧ hwid = ki.hwid then
        ({ success := true, message := "Key activated." },
         ainsert keys key { ki with status := "activated" })
      else if ki.status = "activated" then
        ({ success := true, message := "Key already activated." }, keys)
      else
        ({ success := false, message := "HWID mismatch or invalid activation." }, keys)

/-! ## Duration parsing -/

/-- Python `str.strip()` whitespace (the ASCII whitespace characters;
the claims never involve the further Unicode ones). -/
def pyIsSpace (c : Char) : Bool :=
  c = ' ' || c = '\t' || c = '\n' || c = '\r' || c = Char.ofNat 11 || c = Char.ofNat 12

/-- Python `str.lower()` on one character (ASCII; the inputs at issue
contain no non-ASCII letters). -/
def pyLowerChar (c : Char) : Char :=
  if 'A' ≤ c ∧ c ≤ 'Z' then Char.ofNat (c.toNat + 32) else c

/-- Python `str.lower()`. -/
def pyLower (l : List Char) : List Char := l.map pyLowerChar

/-- Python `str.strip()`: drop leading and trailing whitespace. -/
def pyStrip (l : List Char) : List Char :=
  ((l.dropWhile pyIsSpace).reverse.dropWhile pyIsSpace).reverse

/-- One optional regex component `(?:(\d+)u)?`: a greedy maximal
digit run must be non-empty and immediately followed by the unit
letter, else the group matches empty and consumes nothing (a shorter
digit run can never help, since the following character would again
be a digit). -/
def readComponent (u : Char) (l : List Char) : Option Nat × List Char :=
  let ds := l.takeWhile Char.isDigit
  match l.dropWhile Char.isDigit with
  | c :: rest => if ds ≠ [] ∧ c = u then (some (parseDigits ds), rest) else (none, l)
  | [] => (none, l)

/-- `re.fullmatch` of the pattern
`(?:(\d+)y)?(?:(\d+)m)?(?:(\d+)d)?(?:(\d+)h)?`: the four optional
components in fixed order, with nothing left over; absent groups
default to 0 (`match.groups(default="0")`). -/
def readDuration (l : List Char) : Option (Nat × Nat × Nat × Nat) :=
  let (y, l1) := readComponent 'y' l
  let (m, l2) := readComponent 'm' l1
  let (d, l3) := readComponent 'd' l2
  let (h, l4) := readComponent 'h' l3
  if l4 = [] then some (y.getD 0, m.getD 0, d.getD 0, h.getD 0) else none

/-- `parse_duration` (`key.py` lines 353-366): the literal tokens
`permanent`/`never`/`0` (checked on the lowered, unstripped string)
yield 0; otherwise the regex runs on the stripped, lowered string;
the total is `years*365 + months*30 + days` plus `hours/24` as an
exact fraction of a day (the Python float division modelled
exactly), truncated by `int()` unless the total is not positive, in
which case 0 is returned. -/
def parse_duration (s : String) : Option Nat :=
  let lowered := pyLower s.data
  if lowered = "permanent".data ∨ lowered = "never".data ∨ lowered = "0".data then
    some 0
  else
    match readDuration (pyLower (pyStrip s.data)) with
    | none => none
    | some (y, m, d, h) =>
        let total : ℚ := ((y * 365 + m * 30 + d : Nat) : ℚ) + (h : ℚ) / 24
        some (if 0 < total then Nat.floor total else 0)

/-! ### Duration strings built from components -/

/-- Render one optional duration component: the decimal value
followed by its unit letter, or nothing. -/
def componentChars (v : Option Nat) (u : Char) : List Char :=
  match v with
  | none => []
  | some n => toDecimal n ++ [u]

/-- A duration string built from optional `y`/`m`/`d`/`h` components
in the fixed order the pattern accepts. -/
def buildDuration (y m d h : Option Nat) : String :=
  String.mk (componentChars y 'y' ++ componentChars m 'm' ++
    componentChars d 'd' ++ componentChars h 'h')

theorem digitChar_props {d : Nat} (h : d < 10) :
    (digitChar d).isDigit = true ∧ pyLowerChar (digitChar d) = digitChar d ∧
      pyIsSpace (digitChar d) = false := by
  interval_cases d <;> exact ⟨by decide, by decide, by decide⟩

theorem toDecimal_safe (n : Nat) :
    ∀ c ∈ toDecimal n, c.isDigit = true ∧ pyLowerChar c = c ∧ pyIsSpace c = false := by
  induction n using Nat.strong_induction_on with
  | _ n ih =>
    rw [toDecimal]
    split
    · intro c hc
      simp only [List.mem_singleton] at hc
      subst hc
      exact digitChar_props (by omega)
    · intro c hc
      rcases List.mem_append.mp hc with h1 | h1
      · exact ih (n / 10) (Nat.div_lt_self (by omega) (by omega)) c h1
      · simp only [List.mem_singleton] at h1
        subst h1
        exact digitChar_props (Nat.mod_lt _ (by omega))

theorem componentChars_safe (v : Option Nat) (u : Char)
    (hu : pyLowerChar u = u ∧ pyIsSpace u = false) :
    ∀ c ∈ componentChars v u, pyLowerChar c = c ∧ pyIsSpace c = false := by
  cases v with
  | none =>
    intro c hc
    simp [componentChars] at hc
  | some n =>
    intro c hc
    have hc' : c ∈ toDecimal n ∨ c = u := by simpa [componentChars] using hc
    rcases hc' with h1 | h1
    · exact (toDecimal_safe n c h1).2
    · subst h1
      exact hu

theorem pyLower_of_fixed (l : List Char) (h : ∀ c ∈ l, pyLowerChar c = c) :
    pyLower l = l := by
  induction l with
  | nil => rfl
  | cons a t ih =>
    simp only [pyLower, List.map_cons]
    rw [h a (List.mem_cons_self _ _), List.map_eq_map_iff.mpr
      (fun c hc => h c (List.mem_cons_of_mem _ hc))]
    simp

theorem dropWhile_eq_self_of_all (p : Char → Bool) (l : List Char)
    (h : ∀ c ∈ l, p c = false) : l.dropWhile p = l := by
  cases l with
  | nil => rfl
  | cons a t => simp [List.dropWhile_cons, h a (List.mem_cons_self _ _)]

theorem pyStrip_of_no_space (l : List Char) (h : ∀ c ∈ l, pyIsSpace c = false) :
    pyStrip l = l := by
  rw [pyStrip, dropWhile_eq_self_of_all _ _ h,
      dropWhile_eq_self_of_all _ _ (fun c hc => h c (List.mem_reverse.mp hc)),
      List.reverse_reverse]

theorem takeWhile_true_append (p : Char → Bool) (xs : List Char)
    (hx : ∀ c ∈ xs, p c = true) (y : Char) (hy : p y = false) (rest : List Char) :
    (xs ++ y :: rest).takeWhile p = xs ∧ (xs ++ y :: rest).dropWhile p = y :: rest := by
  induction xs with
  | nil => simp [List.takeWhile_cons, List.dropWhile_cons, hy]
  | cons a t ih =>
    have h2 := ih (fun c hc => hx c (List.mem_cons_of_mem _ hc))
    constructor
    · simp only [List.cons_append, List.takeWhile_cons,
        hx a (List.mem_cons_self _ _), if_true]
      rw [h2.1]
    · simp only [List.cons_append, List.dropWhile_cons,
        hx a (List.mem_cons_self _ _), if_true]
      rw [h2.2]

theorem takeWhile_digits_prefix (n : Nat) (u : Char) (hu : u.isDigit = false)
    (rest : List Char) :
    (toDecimal n ++ u :: rest).takeWhile Char.isDigit = toDecimal n ∧
      (toDecimal n ++ u :: rest).dropWhile Char.isDigit = u :: rest :=
  takeWhile_true_append Char.isDigit (toDecimal n) (toDecimal_all_digits n) u hu rest

theorem readComponent_consume (u : Char) (hu : u.isDigit = false) (n : Nat)
    (rest : List Char) :
    readComponent u (toDecimal n ++ u :: rest) = (some n, rest) := by
  obtain ⟨ht, hd⟩ := takeWhile_digits_prefix n u hu rest
  rw [readComponent]
  simp only [ht, hd]
  simp [toDecimal_ne_nil n, parseDigits_toDecimal]

theorem readComponent_skip (u : Char) (l : List Char)
    (h : ∀ c, (l.dropWhile Char.isDigit).head? = some c → c ≠ u) :
    readComponent u l = (none, l) := by
  rw [readComponent]
  cases hd : l.dropWhile Char.isDigit with
  | nil => simp
  | cons c rest =>
    have hc : c ≠ u := h c (by rw [hd]; rfl)
    simp [hc]

theorem head_dropWhile_component_cons (v : Option Nat) (u : Char)
    (hu : u.isDigit = false) (more : List Char) :
    (componentChars v u ++ more).dropWhile Char.isDigit =
      (match v with
       | some _ => u :: more
       | none => more.dropWhile Char.isDigit) := by
  cases v with
  | none => simp [componentChars]
  | some n =>
    have := takeWhile_digits_prefix n u hu more
    simpa [componentChars] using this.2

theorem head_dropWhile_component (v : Option Nat) (u : Char)
    (hu : u.isDigit = false) :
    (componentChars v u).dropWhile Char.isDigit =
      (match v with
       | some _ => [u]
       | none => []) := by
  have := head_dropWhile_component_cons v u hu []
  rw [List.append_nil] at this
  rw [this]
  cases v <;> rfl

theorem head_dropWhile_suffix2 (d h : Option Nat) (c : Char)
    (hc : ((componentChars d 'd' ++ componentChars h 'h').dropWhile
      Char.isDigit).head? = some c) : c = 'd' ∨ c = 'h' := by
  rw [head_dropWhile_component_cons d 'd' (by decide)] at hc
  cases d with
  | some n =>
    simp only [List.head?_cons, Option.some.injEq] at hc
    exact Or.inl hc.symm
  | none =>
    rw [head_dropWhile_component h 'h' (by decide)] at hc
    cases h with
    | some n =>
      simp only [List.head?_cons, Option.some.injEq] at hc
      exact Or.inr hc.symm
    | none => simp at hc

theorem head_dropWhile_suffix3 (m d h : Option Nat) (c : Char)
    (hc : ((componentChars m 'm' ++ (componentChars d 'd' ++ componentChars h 'h')).dropWhile
      Char.isDigit).head? = some c) : c = 'm' ∨ c = 'd' ∨ c = 'h' := by
  rw [head_dropWhile_component_cons m 'm' (by decide)] at hc
  cases m with
  | some n =>
    simp only [List.head?_cons, Option.some.injEq] at hc
    exact Or.inl hc.symm
  | none => exact Or.inr (head_dropWhile_suffix2 d h c hc)

theorem read_build_h (h : Option Nat) :
    readComponent 'h' (componentChars h 'h') = (h, []) := by
  cases h with
  | none => rfl
  | some n =>
    have := readComponent_consume 'h' (by decide) n []
    simpa [componentChars] using this

theorem read_build_d (d h : Option Nat) :
    readComponent 'd' (componentChars d 'd' ++ componentChars h 'h') =
      (d, componentChars h 'h') := by
  cases d with
  | some n =>
    have := readComponent_consume 'd' (by decide) n (componentChars h 'h')
    simpa [componentChars] using this
  | none =>
    have hskip : readComponent 'd' (componentChars h 'h') =
        (none, componentChars h 'h') := by
      refine readComponent_skip 'd' _ (fun c hc => ?_)
      rw [head_dropWhile_component h 'h' (by decide)] at hc
      cases h with
      | some n =>
        simp only [List.head?_cons, Option.some.injEq] at hc
        subst hc
        decide
      | none => simp at hc
    rw [show componentChars none 'd' = ([] : List Char) from rfl, List.nil_append, hskip]

theorem read_build_m (m d h : Option Nat) :
    readComponent 'm' (componentChars m 'm' ++
      (componentChars d 'd' ++ componentChars h 'h')) =
      (m, componentChars d 'd' ++ componentChars h 'h') := by
  cases m with
  | some n =>
    have := readComponent_consume 'm' (by decide) n
      (componentChars d 'd' ++ componentChars h 'h')
    simpa [componentChars] using this
  | none =>
    have hskip : readComponent 'm' (componentChars d 'd' ++ componentChars h 'h') =
        (none, componentChars d 'd' ++ componentChars h 'h') := by
      refine readComponent_skip 'm' _ (fun c hc => ?_)
      rcases head_dropWhile_suffix2 d h c hc with h1 | h1 <;> (subst h1; decide)
    rw [show componentChars none 'm' = ([] : List Char) from rfl, List.nil_append, hskip]

theorem read_build_y (y m d h : Option Nat) :
    readComponent 'y' (componentChars y 'y' ++
      (componentChars m 'm' ++ (componentChars d 'd' ++ componentChars h 'h'))) =
      (y, componentChars m 'm' ++ (componentChars d 'd' ++ componentChars h 'h')) := by
  cases y with
  | some n =>
    have := readComponent_consume 'y' (by decide) n
      (componentChars m 'm' ++ (componentChars d 'd' ++ componentChars h 'h'))
    simpa [componentChars] using this
  | none =>
    have hskip : readComponent 'y' (componentChars m 'm' ++
        (componentChars d 'd' ++ componentChars h 'h')) =
        (none, componentChars m 'm' ++ (componentChars d 'd' ++ componentChars h 'h')) := by
      refine readComponent_skip 'y' _ (fun c hc => ?_)
      rcases head_dropWhile_suffix3 m d h c hc with h1 | h1 | h1 <;> (subst h1; decide)
    rw [show componentChars none 'y' = ([] : List Char) from rfl, List.nil_append, hskip]

theorem readDuration_build (y m d h : Option Nat) :
    readDuration (componentChars y 'y' ++
      (componentChars m 'm' ++ (componentChars d 'd' ++ componentChars h 'h'))) =
      some (y.getD 0, m.getD 0, d.getD 0, h.getD 0) := by
  rw [readDuration, read_build_y]
  dsimp only
  rw [read_build_m]
  dsimp only
  rw [read_build_d]
  dsimp only
  rw [read_build_h]
  simp

theorem build_safe (y m d h : Option Nat) :
    ∀ c ∈ (buildDuration y m d h).data, pyLowerChar c = c ∧ pyIsSpace c = false := by
  intro c hc
  have hc' : c ∈ componentChars y 'y' ++ componentChars m 'm' ++
      componentChars d 'd' ++ componentChars h 'h' := hc
  rcases List.mem_append.mp hc' with hc1 | hc1
  · rcases List.mem_append.mp hc1 with hc2 | hc2
    · rcases List.mem_append.mp hc2 with hc3 | hc3
      · exact componentChars_safe y 'y' (by decide) c hc3
      · exact componentChars_safe m 'm' (by decide) c hc3
    · exact componentChars_safe d 'd' (by decide) c hc2
  · exact componentChars_safe h 'h' (by decide) c hc1

theorem digits_cons_ne (n : Nat) (u : Char) (rest tok : List Char) (c0 : Char)
    (htok : tok.head? = some c0) (hc0 : c0.isDigit = false) :
    toDecimal n ++ u :: rest ≠ tok := by
  intro he
  obtain ⟨a, as, ha⟩ := List.exists_cons_of_ne_nil (toDecimal_ne_nil n)
  have hd : a.isDigit = true :=
    toDecimal_all_digits n a (by rw [ha]; exact List.mem_cons_self _ _)
  rw [ha] at he
  have hhead : some a = some c0 := by
    rw [← htok, ← he]
    simp
  rw [Option.some_inj.mp hhead] at hd
  rw [hc0] at hd
  exact Bool.false_ne_true hd

theorem digits_cons_ne_single (n : Nat) (u : Char) (rest : List Char) (c0 : Char) :
    toDecimal n ++ u :: rest ≠ [c0] := by
  intro he
  have hl := congrArg List.length he
  have hpos : 0 < (toDecimal n).length :=
    List.length_pos.mpr (toDecimal_ne_nil n)
  have hl' : (toDecimal n).length + (rest.length + 1) = 1 := by simpa using hl
  omega

theorem build_shape (y m d h : Option Nat) :
    (∃ n u rest, (buildDuration y m d h).data = toDecimal n ++ u :: rest) ∨
      (buildDuration y m d h).data = [] := by
  have hdata : (buildDuration y m d h).data = componentChars y 'y' ++
      componentChars m 'm' ++ componentChars d 'd' ++ componentChars h 'h' := rfl
  rw [hdata]
  cases y with
  | some n =>
    exact Or.inl ⟨n, 'y', componentChars m 'm' ++ componentChars d 'd' ++
      componentChars h 'h', by simp [componentChars]⟩
  | none =>
    cases m with
    | some n =>
      exact Or.inl ⟨n, 'm', componentChars d 'd' ++ componentChars h 'h',
        by simp [componentChars]⟩
    | none =>
      cases d with
      | some n =>
        exact Or.inl ⟨n, 'd', componentChars h 'h', by simp [componentChars]⟩
      | none =>
        cases h with
        | some n => exact Or.inl ⟨n, 'h', [], by simp [componentChars]⟩
        | none => exact Or.inr (by simp [componentChars])

theorem build_ne_tokens (y m d h : Option Nat) :
    (buildDuration y m d h).data ≠ "permanent".data ∧
      (buildDuration y m d h).data ≠ "never".data ∧
      (buildDuration y m d h).data ≠ "0".data := by
  rcases build_shape y m d h with ⟨n, u, rest, hsh⟩ | hsh
  · rw [hsh]
    refine ⟨digits_cons_ne n u rest _ 'p' (by decide) (by decide),
      digits_cons_ne n u rest _ 'n' (by decide) (by decide), ?_⟩
    have h0 : "0".data = ['0'] := rfl
    rw [h0]
    exact digits_cons_ne_single n u rest '0'
  · rw [hsh]
    exact ⟨by decide, by decide, by decide⟩

theorem floor_total (N H : Nat) :
    (if 0 < ((N : ℚ) + (H : ℚ) / 24) then Nat.floor ((N : ℚ) + (H : ℚ) / 24) else 0) =
      N + H / 24 := by
  by_cases hpos : 0 < ((N : ℚ) + (H : ℚ) / 24)
  · rw [if_pos hpos, add_comm, Nat.floor_add_nat (by positivity) N,
      show ((24 : ℚ)) = ((24 : Nat) : ℚ) by norm_num, Nat.floor_div_nat,
      Nat.floor_natCast]
    omega
  · rw [if_neg hpos]
    have hx : (N : ℚ) + (H : ℚ) / 24 ≤ 0 := le_of_not_lt hpos
    have h1 : (0 : ℚ) ≤ (N : ℚ) := Nat.cast_nonneg N
    have h2 : (0 : ℚ) ≤ (H : ℚ) / 24 := by positivity
    have hN : (N : ℚ) = 0 := le_antisymm (by linarith) h1
    have hH : (H : ℚ) / 24 = 0 := le_antisymm (by linarith) h2
    have hN' : N = 0 := Nat.cast_eq_zero.mp hN
    have hH' : H = 0 := by
      have : (H : ℚ) = 0 := by
        field_simp at hH
        exact_mod_cast hH
      exact_mod_cast this
    omega

/-- Claim C6 supporting lemma: on every duration string built from
optional components in the fixed order, `parse_duration` returns the
spec's day total. -/
theorem parse_duration_build (y m d h : Option Nat) :
    parse_duration (buildDuration y m d h) =
      some (y.getD 0 * 365 + m.getD 0 * 30 + d.getD 0 + h.getD 0 / 24) := by
  have hdata : (buildDuration y m d h).data = componentChars y 'y' ++
      componentChars m 'm' ++ componentChars d 'd' ++ componentChars h 'h' := rfl
  have hsafe := build_safe y m d h
  have hlow : pyLower (buildDuration y m d h).data = (buildDuration y m d h).data :=
    pyLower_of_fixed _ (fun c hc => (hsafe c hc).1)
  have hstrip : pyStrip (buildDuration y m d h).data = (buildDuration y m d h).data :=
    pyStrip_of_no_space _ (fun c hc => (hsafe c hc).2)
  obtain ⟨hne1, hne2, hne3⟩ := build_ne_tokens y m d h
  rw [parse_duration]
  rw [hlow, if_neg (by rintro (hh | hh | hh) <;> [exact hne1 hh; exact hne2 hh; exact hne3 hh])]
  rw [hstrip, hlow, hdata]
  have hassoc : componentChars y 'y' ++ componentChars m 'm' ++
      componentChars d 'd' ++ componentChars h 'h' =
      componentChars y 'y' ++ (componentChars m 'm' ++
        (componentChars d 'd' ++ componentChars h 'h')) := by
    simp [List.append_assoc]
  rw [hassoc, readDuration_build]
  dsimp only
  rw [floor_total]

/-! ## The keys/users synchronization invariant (claim C8) -/

/-- The denormalized summary fields agree with the key record. -/
def summMatches (s : Summary) (r : KeyDict) : Prop :=
  s.key_type = r.key_type ∧ s.expires_at = r.expires_at ∧
    s.hwid = r.hwid ∧ s.status = r.status

/-- The full sync invariant: every key record is referenced under its
owning user's map with a field-accurate summary, and every reference
under a user points back to a key record owned by that user. -/
def Inv (st : St) : Prop :=
  (∀ k r, alookup st.keys k = some r →
     ∃ p, alookup st.users (toString r.user_id) = some p ∧
       ∃ s, alookup p.keys k = some s ∧ summMatches s r) ∧
  (∀ u p k s, alookup st.users u = some p → alookup p.keys k = some s →
     ∃ r, alookup st.keys k = some r ∧ toString r.user_id = u)

/-- The membership half of the invariant alone: a key id is in `keys`
iff it is referenced under its owning user, with no claim about the
summary's field values. -/
def MemInv (st : St) : Prop :=
  (∀ k r, alookup st.keys k = some r →
     ∃ p, alookup st.users (toString r.user_id) = some p ∧
       (alookup p.keys k).isSome = true) ∧
  (∀ u p k s, alookup st.users u = some p → alookup p.keys k = some s →
     ∃ r, alookup st.keys k = some r ∧ toString r.user_id = u)

theorem profileFor_of_lookup (st : St) (uid : Int) (p : Profile)
    (h : alookup st.users (toString uid) = some p) : profileFor st uid = p := by
  rw [profileFor, h]

theorem create_preserves_inv (hash16 : String → String) (kt : String) (uid : Int)
    (hw : String) (dd : Nat) (nm : String) (now : Datetime) (ts : Nat) (st : St)
    (hinv : Inv st)
    (hfresh : alookup st.keys (generate_key hash16 kt uid hw ts) = none) :
    Inv (create_key hash16 kt uid hw dd nm now ts st).2 := by
  obtain ⟨inv1, inv2⟩ := hinv
  set kid := generate_key hash16 kt uid hw ts with hkid
  set lk := (create_key hash16 kt uid hw dd nm now ts st).1 with hlk
  set summ : Summary :=
    { key_type := kt, expires_at := String.mk (isoformat (expiryOf dd now)),
      hwid := hw, status := "deactivated" } with hsumm
  set newProf : Profile :=
    { profileFor st uid with
      keys := ainsert (profileFor st uid).keys kid summ,
      hwids := if hw ∈ (profileFor st uid).hwids then (profileFor st uid).hwids
        else (profileFor st uid).hwids ++ [hw] } with hnewProf
  have hkeys : (create_key hash16 kt uid hw dd nm now ts st).2.keys =
      ainsert st.keys kid (to_dict lk) := rfl
  have husers : (create_key hash16 kt uid hw dd nm now ts st).2.users =
      ainsert st.users (toString uid) newProf := rfl
  have howner : (to_dict lk).user_id = uid := rfl
  have hmatch : summMatches summ (to_dict lk) := ⟨rfl, rfl, rfl, rfl⟩
  constructor
  · intro k r hk
    rw [hkeys] at hk
    rw [husers]
    by_cases hkk : k = kid
    · subst hkk
      rw [alookup_ainsert] at hk
      have hr : r = to_dict lk := (Option.some_inj.mp hk).symm
      subst hr
      rw [howner]
      exact ⟨newProf, alookup_ainsert _ _ _,
        summ, by rw [hnewProf]; exact alookup_ainsert _ _ _, hmatch⟩
    · rw [alookup_ainsert_ne _ _ _ _ hkk] at hk
      obtain ⟨p1, hp1, s1, hs1, hm1⟩ := inv1 k r hk
      by_cases hur : toString r.user_id = toString uid
      · rw [hur] at hp1
        have hpf : profileFor st uid = p1 := profileFor_of_lookup st uid p1 hp1
        refine ⟨newProf, by rw [hur]; exact alookup_ainsert _ _ _, s1, ?_, hm1⟩
        rw [hnewProf]
        show alookup (ainsert (profileFor st uid).keys kid summ) k = some s1
        rw [alookup_ainsert_ne _ _ _ _ hkk, hpf]
        exact hs1
      · exact ⟨p1, by rw [alookup_ainsert_ne _ _ _ _ hur]; exact hp1, s1, hs1, hm1⟩
  · intro u p k s hu hs
    rw [husers] at hu
    rw [hkeys]
    by_cases huu : u = toString uid
    · subst huu
      rw [alookup_ainsert] at hu
      have hp : p = newProf := (Option.some_inj.mp hu).symm
      subst hp
      by_cases hkk : k = kid
      · subst hkk
        exact ⟨to_dict lk, alookup_ainsert _ _ _, by rw [howner]⟩
      · rw [hnewProf] at hs
        have hs' : alookup (ainsert (profileFor st uid).keys kid summ) k = some s := hs
        rw [alookup_ainsert_ne _ _ _ _ hkk] at hs'
        cases hub : alookup st.users (toString uid) with
        | some prof0 =>
          rw [profileFor_of_lookup st uid prof0 hub] at hs'
          obtain ⟨r1, hr1, hru1⟩ := inv2 (toString uid) prof0 k s hub hs'
          exact ⟨r1, by rw [alookup_ainsert_ne _ _ _ _ hkk]; exact hr1, hru1⟩
        | none =>
          rw [profileFor, hub] at hs'
          simp [alookup] at hs'
    · rw [alookup_ainsert_ne _ _ _ _ huu] at hu
      obtain ⟨r1, hr1, hru1⟩ := inv2 u p k s hu hs
      by_cases hkk : k = kid
      · subst hkk
        rw [hfresh] at hr1
        exact absurd hr1 (by simp)
      · exact ⟨r1, by rw [alookup_ainsert_ne _ _ _ _ hkk]; exact hr1, hru1⟩

theorem activate_preserves_inv (k0 : String) (st : St) (hinv : Inv st) :
    Inv (activate_key k0 st).2 := by
  obtain ⟨inv1, inv2⟩ := hinv
  cases hk0 : alookup st.keys k0 with
  | none =>
    simp only [activate_key, hk0]
    exact ⟨inv1, inv2⟩
  | some rec0 =>
    obtain ⟨p0, hp0, s0, hs0, hm0⟩ := inv1 k0 rec0 hk0
    simp only [activate_key, hk0, hp0, hs0]
    set rec1 : KeyDict := { rec0 with status := "activated" } with hrec1
    set s1 : Summary := { s0 with status := "activated" } with hs1def
    set p1 : Profile := { p0 with keys := ainsert p0.keys k0 s1 } with hp1def
    constructor
    · intro k r hk
      by_cases hkk : k = k0
      · subst hkk
        rw [alookup_ainsert] at hk
        have hr : r = rec1 := (Option.some_inj.mp hk).symm
        subst hr
        have howner : rec1.user_id = rec0.user_id := rfl
        rw [howner]
        refine ⟨p1, alookup_ainsert _ _ _, s1, ?_, ?_⟩
        · rw [hp1def]
          exact alookup_ainsert _ _ _
        · exact ⟨hm0.1, hm0.2.1, hm0.2.2.1, rfl⟩
      · rw [alookup_ainsert_ne _ _ _ _ hkk] at hk
        obtain ⟨p2, hp2, s2, hs2, hm2⟩ := inv1 k r hk
        by_cases hur : toString r.user_id = toString rec0.user_id
        · rw [hur] at hp2
          have hpe : p0 = p2 := Option.some_inj.mp (hp0.symm.trans hp2)
          subst hpe
          refine ⟨p1, by rw [hur]; exact alookup_ainsert _ _ _, s2, ?_, hm2⟩
          rw [hp1def]
          show alookup (ainsert p0.keys k0 s1) k = some s2
          rw [alookup_ainsert_ne _ _ _ _ hkk]
          exact hs2
        · exact ⟨p2, by rw [alookup_ainsert_ne _ _ _ _ hur]; exact hp2, s2, hs2, hm2⟩
    · intro u p k s hu hs
      by_cases huu : u = toString rec0.user_id
      · subst huu
        rw [alookup_ainsert] at hu
        have hp : p = p1 := (Option.some_inj.mp hu).symm
        subst hp
        by_cases hkk : k = k0
        · subst hkk
          exact ⟨rec1, alookup_ainsert _ _ _, rfl⟩
        · rw [hp1def] at hs
          have hs' : alookup (ainsert p0.keys k0 s1) k = some s := hs
          rw [alookup_ainsert_ne _ _ _ _ hkk] at hs'
          obtain ⟨r1, hr1, hru1⟩ := inv2 (toString rec0.user_id) p0 k s hp0 hs'
          exact ⟨r1, by rw [alookup_ainsert_ne _ _ _ _ hkk]; exact hr1, hru1⟩
      · rw [alookup_ainsert_ne _ _ _ _ huu] at hu
        obtain ⟨r1, hr1, hru1⟩ := inv2 u p k s hu hs
        by_cases hkk : k = k0
        · subst hkk
          have hre : r1 = rec0 := by
            rw [hk0] at hr1
            exact (Option.some_inj.mp hr1).symm
          subst hre
          exact absurd hru1.symm huu
        · exact ⟨r1, by rw [alookup_ainsert_ne _ _ _ _ hkk]; exact hr1, hru1⟩

theorem delete_preserves_inv (k0 : String) (st : St) (hinv : Inv st) :
    Inv (delete_key k0 st).2 := by
  obtain ⟨inv1, inv2⟩ := hinv
  cases hk0 : alookup st.keys k0 with
  | none =>
    simp only [delete_key, hk0]
    exact ⟨inv1, inv2⟩
  | some rec0 =>
    obtain ⟨p0, hp0, s0, hs0, hm0⟩ := inv1 k0 rec0 hk0
    have hsome : (alookup p0.keys k0).isSome = true := by rw [hs0]; rfl
    simp only [delete_key, hk0, hp0, hsome, if_pos]
    set p1 : Profile := { p0 with keys := aerase p0.keys k0 } with hp1def
    constructor
    · intro k r hk
      have hkk : k ≠ k0 := by
        intro he
        subst he
        rw [alookup_aerase] at hk
        exact absurd hk (by simp)
      rw [alookup_aerase_ne _ _ _ hkk] at hk
      obtain ⟨p2, hp2, s2, hs2, hm2⟩ := inv1 k r hk
      by_cases hur : toString r.user_id = toString rec0.user_id
      · rw [hur] at hp2
        have hpe : p0 = p2 := Option.some_inj.mp (hp0.symm.trans hp2)
        subst hpe
        refine ⟨p1, by rw [hur]; exact alookup_ainsert _ _ _, s2, ?_, hm2⟩
        rw [hp1def]
        show alookup (aerase p0.keys k0) k = some s2
        rw [alookup_aerase_ne _ _ _ hkk]
        exact hs2
      · exact ⟨p2, by rw [alookup_ainsert_ne _ _ _ _ hur]; exact hp2, s2, hs2, hm2⟩
    · intro u p k s hu hs
      by_cases huu : u = toString rec0.user_id
      · subst huu
        rw [alookup_ainsert] at hu
        have hp : p = p1 := (Option.some_inj.mp hu).symm
        subst hp
        rw [hp1def] at hs
        have hs' : alookup (aerase p0.keys k0) k = some s := hs
        have hkk : k ≠ k0 := by
          intro he
          subst he
          rw [alookup_aerase] at hs'
          exact absurd hs' (by simp)
        rw [alookup_aerase_ne _ _ _ hkk] at hs'
        obtain ⟨r1, hr1, hru1⟩ := inv2 (toString rec0.user_id) p0 k s hp0 hs'
        exact ⟨r1, by rw [alookup_aerase_ne _ _ _ hkk]; exact hr1, hru1⟩
      · rw [alookup_ainsert_ne _ _ _ _ huu] at hu
        obtain ⟨r1, hr1, hru1⟩ := inv2 u p k s hu hs
        have hkk : k ≠ k0 := by
          intro he
          subst he
          have hre : r1 = rec0 := by
            rw [hk0] at hr1
            exact (Option.some_inj.mp hr1).symm
          subst hre
          exact absurd hru1.symm huu
        exact ⟨r1, by rw [alookup_aerase_ne _ _ _ hkk]; exact hr1, hru1⟩

theorem api_preserves_meminv (key hw : String) (st : St) (hm : MemInv st) :
    MemInv { keys := (activate_key_api key hw st.keys).2, users := st.users } := by
  obtain ⟨m1, m2⟩ := hm
  cases hk : alookup st.keys key with
  | none =>
    simp only [activate_key_api, hk]
    exact ⟨m1, m2⟩
  | some ki =>
    simp only [activate_key_api, hk]
    by_cases hcond : ki.status ≠ "activated" ∧ hw = ki.hwid
    · rw [if_pos hcond]
      set ki1 : KeyDict := { ki with status := "activated" } with hki1
      constructor
      · intro k r hkr
        by_cases hkk : k = key
        · subst hkk
          have hr : r = ki1 := by
            have := hkr
            rw [alookup_ainsert] at this
            exact (Option.some_inj.mp this).symm
          subst hr
          obtain ⟨p, hp, hps⟩ := m1 k ki hk
          exact ⟨p, hp, hps⟩
        · have := hkr
          rw [alookup_ainsert_ne _ _ _ _ hkk] at this
          exact m1 k r this
      · intro u p k s hu hs
        obtain ⟨r1, hr1, hru1⟩ := m2 u p k s hu hs
        by_cases hkk : k = key
        · subst hkk
          have : r1 = ki := by
            rw [hk] at hr1
            exact (Option.some_inj.mp hr1).symm
          subst this
          exact ⟨ki1, alookup_ainsert _ _ _, hru1⟩
        · exact ⟨r1, by rw [alookup_ainsert_ne _ _ _ _ hkk]; exact hr1, hru1⟩
    · rw [if_neg hcond]
      by_cases hact : ki.status = "activated"
      · rw [if_pos hact]
        exact ⟨m1, m2⟩
      · rw [if_neg hact]
        exact ⟨m1, m2⟩

/-! ## Reset-path lemmas (claim C5) -/

theorem delete_key_keys_none (kdel k : String) (st : St)
    (h : alookup st.keys k = none) :
    alookup ((delete_key kdel st).2).keys k = none := by
  cases hl : alookup st.keys kdel with
  | none =>
    simp only [delete_key, hl]
    exact h
  | some rec0 =>
    simp only [delete_key, hl]
    by_cases hkk : k = kdel
    · subst hkk
      exact alookup_aerase _ _
    · rw [alookup_aerase_ne _ _ _ hkk]
      exact h

theorem delete_key_self (k : String) (st : St) :
    alookup ((delete_key k st).2).keys k = none := by
  cases hl : alookup st.keys k with
  | none => simp only [delete_key, hl]
  | some rec0 =>
    simp only [delete_key, hl]
    exact alookup_aerase _ _

theorem foldDelete_none (ids : List String) (st : St) (k : String)
    (h : alookup st.keys k = none) :
    alookup ((ids.foldl (fun s kk => (delete_key kk s).2) st)).keys k = none := by
  induction ids generalizing st with
  | nil => exact h
  | cons a t ih =>
    exact ih ((delete_key a st).2) (delete_key_keys_none a k st h)

theorem foldDelete_mem (ids : List String) (st : St) (k : String) (h : k ∈ ids) :
    alookup ((ids.foldl (fun s kk => (delete_key kk s).2) st)).keys k = none := by
  induction ids generalizing st with
  | nil => simp at h
  | cons a t ih =>
    by_cases hka : k = a
    · subst hka
      exact foldDelete_none t ((delete_key k st).2) k (delete_key_self k st)
    · have hkt : k ∈ t := by
        rcases List.mem_cons.mp h with h1 | h1
        · exact absurd h1 hka
        · exact h1
      exact ih ((delete_key a st).2) hkt

theorem delete_key_resets (kdel : String) (st : St) (u : String) (p' : Profile)
    (h : alookup ((delete_key kdel st).2).users u = some p') :
    ∃ p, alookup st.users u = some p ∧ p'.resets_left = p.resets_left := by
  cases hl : alookup st.keys kdel with
  | none =>
    simp only [delete_key, hl] at h
    exact ⟨p', h, rfl⟩
  | some rec0 =>
    simp only [delete_key, hl] at h
    cases hu : alookup st.users (toString rec0.user_id) with
    | none =>
      simp only [hu] at h
      exact ⟨p', h, rfl⟩
    | some p0 =>
      simp only [hu] at h
      by_cases hsome : (alookup p0.keys kdel).isSome = true
      · rw [if_pos hsome] at h
        by_cases huu : u = toString rec0.user_id
        · subst huu
          rw [alookup_ainsert] at h
          have hp : p' = { p0 with keys := aerase p0.keys kdel } :=
            (Option.some_inj.mp h).symm
          exact ⟨p0, hu, by rw [hp]⟩
        · rw [alookup_ainsert_ne _ _ _ _ huu] at h
          exact ⟨p', h, rfl⟩
      · rw [if_neg hsome] at h
        exact ⟨p', h, rfl⟩

theorem foldDelete_resets (ids : List String) (st : St) (u : String) (p' : Profile)
    (h : alookup ((ids.foldl (fun s kk => (delete_key kk s).2) st)).users u = some p') :
    ∃ p, alookup st.users u = some p ∧ p'.resets_left = p.resets_left := by
  induction ids generalizing st with
  | nil => exact ⟨p', h, rfl⟩
  | cons a t ih =>
    obtain ⟨p1, hp1, hr1⟩ := ih ((delete_key a st).2) h
    obtain ⟨p2, hp2, hr2⟩ := delete_key_resets a st u p1 hp1
    exact ⟨p2, hp2, by rw [hr1, hr2]⟩

/-! ## Concrete states for counterexamples and witnesses -/

/-- A fixed check time, 2024-01-01 00:00:00. -/
def now0 : Datetime := ⟨2024, 1, 1, 0, 0, 0, 0⟩

/-- A concrete stand-in for the SHA-256 16-hex-digit digest. -/
def cexHash : String → String := fun _ => "DEADBEEF00000000"

/-- A stored key that is expired (2020 expiry), activated, and bound
to hwid `H1`. -/
def expiredRec : KeyDict :=
  ⟨"AV-EXP1", "AV", 42, "H1", "2020-01-01T00:00:00", "2019-01-01T00:00:00", "n",
    "activated"⟩

/-- Keys mapping holding only `expiredRec`. -/
def cexKeys1 : List (String × KeyDict) := [("AV-EXP1", expiredRec)]

/-- A stored key that is activated, never-expiring, bound to `H1`. -/
def actRec : KeyDict :=
  ⟨"AV-ACT1", "AV", 42, "H1", "9999-12-31T00:00:00", "2024-01-01T00:00:00", "",
    "activated"⟩

/-- Keys mapping holding only `actRec`. -/
def cexKeys2 : List (String × KeyDict) := [("AV-ACT1", actRec)]

/-- A user profile whose `AV` reset counter is exhausted (zero). -/
def profC3 : Profile := ⟨7, [], [], [("AV", 0)]⟩

/-- State with user 7 at zero `AV` resets and no keys. -/
def stC3 : St := ⟨[], [("7", profC3)]⟩

/-- State holding the activated key `actRec` with its owner's
summary. -/
def stC4 : St :=
  ⟨[("AV-ACT1", actRec)],
   [("42", ⟨42, [("AV-ACT1", ⟨"AV", "9999-12-31T00:00:00", "H1", "activated"⟩)],
     ["H1"], []⟩)]⟩

/-- A deactivated ASTD key owned by user 9. -/
def astdRec : KeyDict :=
  ⟨"ASTD-K1", "ASTD", 9, "H9", "9999-12-31T00:00:00", "2024-01-01T00:00:00", "",
    "deactivated"⟩

/-- Profile of user 9: owns `astdRec`, has 7 ASTD resets recorded. -/
def profC5 : Profile :=
  ⟨9, [("ASTD-K1", ⟨"ASTD", "9999-12-31T00:00:00", "H9", "deactivated"⟩)], ["H9"],
    [("ASTD", 7)]⟩

/-- State for the reset counterexample. -/
def stC5 : St := ⟨[("ASTD-K1", astdRec)], [("9", profC5)]⟩

/-- A never-expiring key object with non-trivial time fields. -/
def kSent : LicenseKey :=
  ⟨"AV-S1", "AV", 1, "HW", sentinelExpiry, ⟨2024, 1, 2, 3, 4, 5, 6⟩, "nm",
    "deactivated"⟩

/-- State produced by creating a key for user 5 and then activating
it over HTTP with the matching hwid. -/
def stC8 : St := (create_key cexHash "AV" 5 "H5" 0 "" now0 1700000001 ⟨[], []⟩).2

/-- The keys mapping after the HTTP activation of that key. -/
def keysC8 : List (String × KeyDict) :=
  (activate_key_api "AV-DEADBEEF00000000" "H5" stC8.keys).2

/-- The empty persisted state satisfies the sync invariant. -/
theorem inv_empty : Inv ⟨[], []⟩ := by
  constructor
  · intro k r h
    simp [alookup] at h
  · intro u p k s h
    simp [alookup] at h

/-! ## Claims -/

/-- Claim C1 (amended): the `/check` handler reads neither the
caller's hwid nor the expiry: its response is the same for every
supplied hwid, it reports invalid exactly when the key id is absent,
and for every present key it reports valid with the stored record
and the computed `days_left`, regardless of expiry and of any hwid
mismatch. -/
theorem claim_C1_amended (now : Datetime) (key hwid_arg : String)
    (keys : List (String × KeyDict)) :
    (∀ hw1 hw2, check_key now key hw1 keys = check_key now key hw2 keys) ∧
    (check_key now key hwid_arg keys = CheckResp.invalid ↔ alookup keys key = none) ∧
    (∀ r, alookup keys key = some r →
      check_key now key hwid_arg keys = CheckResp.valid
        { key_id := r.key_id, key_type := r.key_type, user_id := r.user_id,
          hwid := r.hwid, status := r.status, expires_at := r.expires_at,
          created_at := r.created_at, name := r.name,
          days_left := checkDaysLeft now r }) := by
  refine ⟨fun hw1 hw2 => rfl, ?_, ?_⟩
  · cases hk : alookup keys key with
    | none => simp [check_key, hk]
    | some r0 => simp [check_key, hk]
  · intro r hr
    simp [check_key, hr]

/-- Claim C1 counterexample: a stored key that is expired at check
time (non-sentinel 2020 expiry, checked at 2024), activated, and
bound to a different hwid than the caller supplies, is still
reported valid by `/check`; the claim requires an invalid report
with an expiry (or mismatch) reason. -/
theorem claim_C1_counterexample :
    expiredRec.status = "activated" ∧
    expiredRec.hwid ≠ "H2" ∧
    (∃ e, fromisoformat expiredRec.expires_at.data = some e ∧
      e.year < 9999 ∧ dtLtb e now0 = true) ∧
    (check_key now0 "AV-EXP1" "H2" cexKeys1).isValid = true := by
  refine ⟨rfl, by decide, ⟨⟨2020, 1, 1, 0, 0, 0, 0⟩, by decide, by decide, by decide⟩,
    by decide⟩

/-- Claim C1 witness: instantiating the amended theorem at a present
key. -/
theorem claim_C1_witness :
    alookup cexKeys2 "AV-ACT1" = some actRec ∧
    check_key now0 "AV-ACT1" "HX" cexKeys2 = CheckResp.valid
      { key_id := actRec.key_id, key_type := actRec.key_type,
        user_id := actRec.user_id, hwid := actRec.hwid, status := actRec.status,
        expires_at := actRec.expires_at, created_at := actRec.created_at,
        name := actRec.name, days_left := checkDaysLeft now0 actRec } :=
  ⟨by decide, (claim_C1_amended now0 "AV-ACT1" "HX" cexKeys2).2.2 actRec (by decide)⟩

/-- Claim C2 (amended): for an already-activated key the `/activate`
handler reports success whatever hwid the caller supplies ("Key
already activated."); a deactivated key is activated exactly when
the supplied hwid equals the stored one, otherwise the handler
reports a hwid-mismatch failure; an absent key reports not-found. -/
theorem claim_C2_amended (key hw : String) (keys : List (String × KeyDict)) :
    (alookup keys key = none →
       activate_key_api key hw keys =
         ({ success := false, message := "Key not found." }, keys)) ∧
    (∀ ki, alookup keys key = some ki →
       (ki.status = "activated" →
          activate_key_api key hw keys =
            ({ success := true, message := "Key already activated." }, keys)) ∧
       (ki.status ≠ "activated" → hw = ki.hwid →
          activate_key_api key hw keys =
            ({ success := true, message := "Key activated." },
             ainsert keys key { ki with status := "activated" })) ∧
       (ki.status ≠ "activated" → hw ≠ ki.hwid →
          activate_key_api key hw keys =
            ({ success := false,
               message := "HWID mismatch or invalid activation." }, keys))) := by
  constructor
  · intro h
    simp [activate_key_api, h]
  · intro ki hki
    refine ⟨?_, ?_, ?_⟩
    · intro hact
      simp only [activate_key_api, hki]
      rw [if_neg (by rintro ⟨hne, _⟩; exact hne hact), if_pos hact]
    · intro hne heq
      simp only [activate_key_api, hki]
      rw [if_pos ⟨hne, heq⟩]
    · intro hne hneq
      simp only [activate_key_api, hki]
      rw [if_neg (by rintro ⟨_, heq⟩; exact hneq heq), if_neg hne]

/-- Claim C2 counterexample: activating the already-activated key
`AV-ACT1` (stored hwid `H1`) with the different hwid `H2` reports
success, not the "registered to another machine" rejection the claim
requires. -/
theorem claim_C2_counterexample :
    actRec.status = "activated" ∧
    actRec.hwid ≠ "H2" ∧
    (activate_key_api "AV-ACT1" "H2" cexKeys2).1.success = true := by
  refine ⟨rfl, by decide, by decide⟩

/-- Claim C2 witness: instantiating the amended theorem at the
already-activated key with a mismatched hwid. -/
theorem claim_C2_witness :
    alookup cexKeys2 "AV-ACT1" = some actRec ∧
    activate_key_api "AV-ACT1" "H2" cexKeys2 =
      ({ success := true, message := "Key already activated." }, cexKeys2) :=
  ⟨by decide,
   ((claim_C2_amended "AV-ACT1" "H2" cexKeys2).2 actRec (by decide)).1 rfl⟩

/-- Claim C3 (amended): `KeyManager.create_key` performs no
reset-counter check at all: for every state and arguments — including
a user whose stored per-type counter is zero — it succeeds, returning
a deactivated key whose record is inserted into the keys mapping. -/
theorem claim_C3_amended (hash16 : String → String) (kt : String) (uid : Int)
    (hw : String) (dd : Nat) (nm : String) (now : Datetime) (ts : Nat) (st : St) :
    (create_key hash16 kt uid hw dd nm now ts st).1.status = "deactivated" ∧
    alookup (create_key hash16 kt uid hw dd nm now ts st).2.keys
        (create_key hash16 kt uid hw dd nm now ts st).1.key_id =
      some (to_dict (create_key hash16 kt uid hw dd nm now ts st).1) := by
  refine ⟨rfl, ?_⟩
  have h1 : (create_key hash16 kt uid hw dd nm now ts st).1.key_id =
      generate_key hash16 kt uid hw ts := rfl
  have h2 : (create_key hash16 kt uid hw dd nm now ts st).2.keys =
      ainsert st.keys (generate_key hash16 kt uid hw ts)
        (to_dict (create_key hash16 kt uid hw dd nm now ts st).1) := rfl
  rw [h1, h2]
  exact alookup_ainsert _ _ _

/-- Claim C3 counterexample: user 7's `AV` reset counter is stored as
zero, yet `create_key` succeeds and inserts the new key; the claim
requires a "no resets remaining" failure with the keys mapping
unchanged. -/
theorem claim_C3_counterexample :
    alookup stC3.users "7" = some profC3 ∧
    alookup profC3.resets_left "AV" = some 0 ∧
    alookup stC3.keys "AV-DEADBEEF00000000" = none ∧
    (alookup (create_key cexHash "AV" 7 "HW" 0 "nm" now0 1700000000 stC3).2.keys
      "AV-DEADBEEF00000000").isSome = true := by
  refine ⟨by decide, by decide, by decide, by decide⟩

/-- Claim C4 (amended): `KeyManager.activate_key` takes only a key id
— no hwid is supplied or bound — and succeeds for every existing key
regardless of its current status (setting the stored status to
activated and leaving every other field, including `hwid`,
unchanged); the only failure is not-found. -/
theorem claim_C4_amended (key_id : String) (st : St) :
    (alookup st.keys key_id = none → activate_key key_id st = (false, st)) ∧
    (∀ r, alookup st.keys key_id = some r →
       (activate_key key_id st).1 = true ∧
       alookup (activate_key key_id st).2.keys key_id =
         some { r with status := "activated" }) := by
  constructor
  · intro h
    simp [activate_key, h]
  · intro r hr
    constructor
    · simp [activate_key, hr]
    · simp only [activate_key, hr]
      exact alookup_ainsert _ _ _

/-- Claim C4 counterexample: the key `AV-ACT1` is already activated,
yet `activate_key` reports success; the claim allows success only
from the deactivated status, with an already-activated mismatch
failing distinctly. -/
theorem claim_C4_counterexample :
    alookup stC4.keys "AV-ACT1" = some actRec ∧
    actRec.status = "activated" ∧
    (activate_key "AV-ACT1" stC4).1 = true := by
  refine ⟨by decide, rfl, by decide⟩

/-- Claim C4 witness: instantiating the amended theorem at the
concrete activated key. -/
theorem claim_C4_witness :
    alookup stC4.keys "AV-ACT1" = some actRec ∧
    (activate_key "AV-ACT1" stC4).1 = true ∧
    alookup (activate_key "AV-ACT1" stC4).2.keys "AV-ACT1" =
      some { actRec with status := "activated" } := by
  refine ⟨by decide, ?_, ?_⟩
  · exact (((claim_C4_amended "AV-ACT1" stC4).2 actRec) (by decide)).1
  · exact (((claim_C4_amended "AV-ACT1" stC4).2 actRec) (by decide)).2

/-- Claim C5 (amended): the self-service reset deletes every matching
key — a subsequent `get_key` reports not-found — but no stored reset
counter changes: every surviving profile keeps its `resets_left`
exactly as it was (nothing in the code reads or writes it; the
"Resets Left" shown is a hardcoded constant). -/
theorem claim_C5_amended :
    (∀ (uid : Int) (kt : String) (st : St) (k : String) (r : KeyDict),
       alookup st.keys k = some r → r.user_id = uid → r.key_type = kt →
       r.key_id = k → get_key (resetUserKeys uid kt st) k = none) ∧
    (∀ (uid : Int) (kt : String) (st : St) (u : String) (p' : Profile),
       alookup (resetUserKeys uid kt st).users u = some p' →
       ∃ p, alookup st.users u = some p ∧ p'.resets_left = p.resets_left) := by
  constructor
  · intro uid kt st k r hk hu ht hid
    rw [get_key]
    have hm : (k, r) ∈ st.keys := alookup_mem _ _ _ hk
    have hf : (k, r) ∈ st.keys.filter
        (fun p => p.2.user_id == uid && p.2.key_type == kt) :=
      List.mem_filter.mpr ⟨hm, by simp [hu, ht]⟩
    have hmem : k ∈ (st.keys.filter
        (fun p => p.2.user_id == uid && p.2.key_type == kt)).map
        (fun p => p.2.key_id) :=
      List.mem_map.mpr ⟨(k, r), hf, hid⟩
    simp only [resetUserKeys]
    rw [foldDelete_mem _ _ _ hmem]
    rfl
  · intro uid kt st u p' h
    simp only [resetUserKeys] at h
    exact foldDelete_resets _ _ _ _ h

/-- Claim C5 counterexample: user 9's stored `resets_left["ASTD"]` is
7 before the reset and still 7 after it (the key itself is gone); the
claim requires the counter to decrease by exactly 1 to 6. -/
theorem claim_C5_counterexample :
    alookup profC5.resets_left "ASTD" = some 7 ∧
    get_key (resetUserKeys 9 "ASTD" stC5) "ASTD-K1" = none ∧
    (alookup (resetUserKeys 9 "ASTD" stC5).users "9").map Profile.resets_left =
      some [("ASTD", 7)] ∧
    ¬ (7 : Nat) = 7 - 1 := by
  refine ⟨by decide, by decide, by decide, by decide⟩

/-- Claim C5 witness: instantiating the amended theorem on the
concrete reset state. -/
theorem claim_C5_witness :
    alookup stC5.keys "ASTD-K1" = some astdRec ∧
    get_key (resetUserKeys 9 "ASTD" stC5) "ASTD-K1" = none :=
  ⟨by decide,
   claim_C5_amended.1 9 "ASTD" stC5 "ASTD-K1" astdRec (by decide) (by decide)
     (by decide) (by decide)⟩

/-- Claim C6 (confirmed): every duration string built from optional
`y`/`m`/`d`/`h` components in the fixed order parses to
`years*365 + months*30 + days + floor(hours/24)`; the literal tokens
`permanent`, `never` and `0` parse to 0; and `abc` and `1x` are
rejected. -/
theorem claim_C6 :
    (∀ y m d h : Option Nat,
       parse_duration (buildDuration y m d h) =
         some (y.getD 0 * 365 + m.getD 0 * 30 + d.getD 0 + h.getD 0 / 24)) ∧
    parse_duration "permanent" = some 0 ∧
    parse_duration "never" = some 0 ∧
    parse_duration "0" = some 0 ∧
    parse_duration "abc" = none ∧
    parse_duration "1x" = none := by
  refine ⟨parse_duration_build, by decide, by decide, by decide, by decide, by decide⟩

/-- Claim C7 (confirmed): `create_key` with `duration_days = 0` sets
the sentinel expiry `9999-12-31`, and `is_expired` is false at every
check time for every key whose expiry year is the sentinel. -/
theorem claim_C7 (hash16 : String → String) (kt : String) (uid : Int)
    (hw nm : String) (now : Datetime) (ts : Nat) (st : St) :
    (create_key hash16 kt uid hw 0 nm now ts st).1.expires_at = sentinelExpiry ∧
    (∀ k : LicenseKey, 9999 ≤ k.expires_at.year →
       ∀ t : Datetime, is_expired k t = false) := by
  constructor
  · rfl
  · intro k hk t
    rw [is_expired, if_pos hk]

/-- Claim C7 witness: the sentinel key is never expired at the
concrete check time. -/
theorem claim_C7_witness :
    9999 ≤ kSent.expires_at.year ∧ is_expired kSent now0 = false :=
  ⟨by decide, (claim_C7 cexHash "AV" 1 "HW" "" now0 5 ⟨[], []⟩).2 kSent (by decide) now0⟩

/-- Claim C8 (amended): the membership invariant — a key id is in
`keys` iff it is referenced under its owning user — together with
field-accurate summaries is preserved by `create_key` (for a fresh
id), by `KeyManager.activate_key` and by `delete_key`; the HTTP
activation preserves only the membership half: it updates the key
record's status without touching the user's summary, which goes
stale (see the counterexample). -/
theorem claim_C8_amended :
    (∀ (hash16 : String → String) (kt : String) (uid : Int) (hw : String)
       (dd : Nat) (nm : String) (now : Datetime) (ts : Nat) (st : St),
       Inv st → alookup st.keys (generate_key hash16 kt uid hw ts) = none →
       Inv (create_key hash16 kt uid hw dd nm now ts st).2) ∧
    (∀ (k : String) (st : St), Inv st → Inv (activate_key k st).2) ∧
    (∀ (k : String) (st : St), Inv st → Inv (delete_key k st).2) ∧
    (∀ (key hw : String) (st : St), MemInv st →
       MemInv { keys := (activate_key_api key hw st.keys).2, users := st.users }) :=
  ⟨fun hash16 kt uid hw dd nm now ts st hinv hfresh =>
     create_preserves_inv hash16 kt uid hw dd nm now ts st hinv hfresh,
   fun k st hinv => activate_preserves_inv k st hinv,
   fun k st hinv => delete_preserves_inv k st hinv,
   fun key hw st hm => api_preserves_meminv key hw st hm⟩

/-- Claim C8 counterexample: after creating a key for user 5 and
activating it through `POST /activate` with the matching hwid, the
key record's status is `activated` while the owner's denormalized
summary still says `deactivated` — the summary is not kept in sync
by this mutation, contradicting the claim. -/
theorem claim_C8_counterexample :
    (alookup keysC8 "AV-DEADBEEF00000000").map KeyDict.status = some "activated" ∧
    (alookup stC8.users "5").map
        (fun p => (alookup p.keys "AV-DEADBEEF00000000").map Summary.status) =
      some (some "deactivated") := by
  refine ⟨by decide, by decide⟩

/-- Claim C8 witness: instantiating the creation conjunct of the
amended theorem at the empty state. -/
theorem claim_C8_witness :
    Inv (⟨[], []⟩ : St) ∧
    Inv (create_key cexHash "AV" 1 "H" 0 "" now0 5 ⟨[], []⟩).2 :=
  ⟨inv_empty, claim_C8_amended.1 cexHash "AV" 1 "H" 0 "" now0 5 ⟨[], []⟩ inv_empty rfl⟩

/-- Claim C9 (confirmed): `to_dict` followed by `from_dict`
reproduces every field of a `LicenseKey`, for all keys whose
timestamps satisfy the bounds Python `datetime` guarantees —
including the sentinel expiry year. -/
theorem claim_C9 (k : LicenseKey) (h1 : validDatetime k.expires_at)
    (h2 : validDatetime k.created_at) : from_dict (to_dict k) = some k := by
  rw [from_dict]
  have he : (to_dict k).expires_at.data = isoformat k.expires_at := rfl
  have hc : (to_dict k).created_at.data = isoformat k.created_at := rfl
  rw [he, hc, fromisoformat_isoformat _ h1, fromisoformat_isoformat _ h2]
  rfl

/-- Claim C9 witness: the round trip at a concrete sentinel-expiry
key. -/
theorem claim_C9_witness :
    validDatetime kSent.expires_at ∧ validDatetime kSent.created_at ∧
    from_dict (to_dict kSent) = some kSent :=
  ⟨by decide, by decide, claim_C9 kSent (by decide) (by decide)⟩

/-- Claim C10 (confirmed): `generate_key` is a function of the key
type, user id, hwid and whole-second timestamp, so a second
`create_key` with the same arguments in the same second produces the
identical key id and overwrites the first record in place: the
mapping holds the second record under that id and gains no entry. -/
theorem claim_C10 (hash16 : String → String) (kt : String) (uid : Int)
    (hw : String) (dd : Nat) (nm : String) (now : Datetime) (ts : Nat) (st : St) :
    (create_key hash16 kt uid hw dd nm now ts
        (create_key hash16 kt uid hw dd nm now ts st).2).1.key_id =
      (create_key hash16 kt uid hw dd nm now ts st).1.key_id ∧
    alookup (create_key hash16 kt uid hw dd nm now ts
        (create_key hash16 kt uid hw dd nm now ts st).2).2.keys
        (create_key hash16 kt uid hw dd nm now ts st).1.key_id =
      some (to_dict (create_key hash16 kt uid hw dd nm now ts
        (create_key hash16 kt uid hw dd nm now ts st).2).1) ∧
    (create_key hash16 kt uid hw dd nm now ts
        (create_key hash16 kt uid hw dd nm now ts st).2).2.keys.length =
      (create_key hash16 kt uid hw dd nm now ts st).2.keys.length := by
  set st1 := (create_key hash16 kt uid hw dd nm now ts st).2 with hst1
  have hid1 : (create_key hash16 kt uid hw dd nm now ts st).1.key_id =
      generate_key hash16 kt uid hw ts := rfl
  have hid2 : (create_key hash16 kt uid hw dd nm now ts st1).1.key_id =
      generate_key hash16 kt uid hw ts := rfl
  have hk1 : (create_key hash16 kt uid hw dd nm now ts st).2.keys =
      ainsert st.keys (generate_key hash16 kt uid hw ts)
        (to_dict (create_key hash16 kt uid hw dd nm now ts st).1) := rfl
  have hk2 : (create_key hash16 kt uid hw dd nm now ts st1).2.keys =
      ainsert st1.keys (generate_key hash16 kt uid hw ts)
        (to_dict (create_key hash16 kt uid hw dd nm now ts st1).1) := rfl
  have hmem : alookup st1.keys (generate_key hash16 kt uid hw ts) =
      some (to_dict (create_key hash16 kt uid hw dd nm now ts st).1) := by
    rw [hst1, hk1]
    exact alookup_ainsert _ _ _
  refine ⟨hid2.trans hid1.symm, ?_, ?_⟩
  · rw [hid1, hk2]
    exact alookup_ainsert _ _ _
  · rw [hk2]
    exact length_ainsert_of_mem st1.keys (generate_key hash16 kt uid hw ts)
      (to_dict (create_key hash16 kt uid hw dd nm now ts st).1)
      (to_dict (create_key hash16 kt uid hw dd nm now ts st1).1) hmem

end KeySystem
